import Mathlib

/-!
Verification of the eth_no_trend_bot trading program (src/eth_no_trend_bot.rs).

This file shallowly embeds the trade-lifecycle state machine of the bot:
the monitoring loop (monitor_market), entry execution (execute_trade),
the sustained stop-loss detector (manage_position), persistent
liquidation (persistent_liquidation), order construction and signing
(place_order, Eip712Signer), and the ledger effects (save_log,
traded_markets).

Modelling conventions:
- f64 prices are modelled as exact rationals (all comparisons in the
  source are order comparisons against decimal constants, which the
  rational model decides identically on the decimal inputs involved).
- u64 arithmetic that can wrap is modelled by wsub64 (release-mode
  wrapping semantics; debug builds would panic at the same spot).
- Network collaborators (order books, position queries, submissions,
  order-status polls) are inputs of the model: each run function takes
  the sequence of collaborator responses as an explicit scenario.
- Wall-clock timestamps are naturals (unix seconds); formatted
  free-text fields of the ledger record (times, notes) are modelled by
  fixed placeholder strings since no claim depends on their contents.
- keccak256 and the ECDSA signature are collision-free primitives that
  are a function of their input; the signing model returns the encoded
  word sequence that is hashed and signed.
-/

/-! ## Configuration constants (source lines 27-47) -/

def TRADE_SIDE : String := "BOTH"

def ENTRY_PRICE : ℚ := 96/100

def STOP_LOSS_PRICE : ℚ := 89/100

def SUSTAIN_TIME : ℕ := 3

def POSITION_SIZE : ℕ := 25

def MARKET_WINDOW : ℕ := 240

def POLLING_INTERVAL : ℕ := 1

def ENTRY_TIMEOUT : ℕ := 210

def ABORT_ASK_PRICE : ℚ := 99/100

/-- 2^64, the modulus of Rust u64 arithmetic. -/
def U64_MOD : ℕ := 2 ^ 64

/-- Rust u64 subtraction `a - b` with release-mode wrapping semantics
(a debug build panics exactly when the wrap happens, i.e. when b > a). -/
def wsub64 (a b : ℕ) : ℕ := (a % U64_MOD + (U64_MOD - b % U64_MOD)) % U64_MOD

/-! ## Data model -/

/-- Model of struct OrderBook (source lines 62-68): best ask/bid with sizes,
optional when the book side is empty. -/
structure OrderBookM where
  best_ask : Option ℚ
  ask_size : ℚ
  best_bid : Option ℚ
  bid_size : ℚ
deriving DecidableEq

/-- Model of struct MarketData (source lines 53-60). -/
structure MarketM where
  slug : String
  title : String
  link : String
  yes_token : String
  no_token : String
deriving DecidableEq

/-- Model of struct TradeRecord (source lines 70-84).  The two wall-clock
fields and the free-text notes are formatted strings in the source; they are
modelled by placeholder strings ("now" for a formatted clock value), and the
numeric fields stored as formatted strings in the source are modelled as
Option values (none = the "-" default). -/
structure TradeRecordM where
  title : String := "-"
  link : String := "-"
  status : String := "-"
  entry1_time : String := "-"
  entry_side : String := "-"
  entry_price : Option ℚ := none
  position_size : Option ℕ := none
  sl_time : String := "-"
  sl_price : Option ℚ := none
  final_status : String := "-"
  notes : String := "-"
  is_sl_triggered : String := "-"
deriving DecidableEq

/-! ## Stop-loss kernel (manage_position, source lines 1002-1052)

manage_position polls the order book every 500 ms; on each poll where a best
bid was observed it runs the following step on its breach_start state:
if the bid is at or below STOP_LOSS_PRICE + 0.02 it starts the timer
(breach_start := now) unless already running, and fires when
now - breach_start ≥ SUSTAIN_TIME; otherwise it resets breach_start. -/

/-- The stop-loss threshold: STOP_LOSS_PRICE plus the 0.02 tolerance
(source line 1009). -/
def slThreshold : ℚ := STOP_LOSS_PRICE + 2/100

/-- One stop-loss poll at wall-clock second now with observed best bid:
returns the new breach_start state and whether the stop loss fires
(source lines 1009-1021, 1041-1046). -/
def slStep (breach_start : Option ℕ) (now : ℕ) (bid : ℚ) : Option ℕ × Bool :=
  if bid ≤ slThreshold then
    let start := breach_start.getD now
    (some start, decide (SUSTAIN_TIME ≤ now - start))
  else (none, false)

/-- The stop-loss detector run over a sequence of (poll time, best bid)
observations: true iff the stop loss fires during the sequence. -/
def slRun (breach_start : Option ℕ) : List (ℕ × ℚ) → Bool
  | [] => false
  | (t, b) :: rest =>
    let s := slStep breach_start t b
    if s.2 then true else slRun s.1 rest

/-- A contiguous run of polls i..j whose bids are all at or below the
threshold and whose wall-clock span is at least SUSTAIN_TIME. -/
def breachRunAt (trace : List (ℕ × ℚ)) (i j : ℕ) : Prop :=
  i ≤ j ∧ j < trace.length ∧
    (∀ k, i ≤ k → k ≤ j → (trace.getD k (0, 0)).2 ≤ slThreshold) ∧
    SUSTAIN_TIME ≤ (trace.getD j (0, 0)).1 - (trace.getD i (0, 0)).1

/-- The bid stays at or below the threshold for a contiguous span of at
least SUSTAIN_TIME seconds somewhere in the trace. -/
def SustainedBreach (trace : List (ℕ × ℚ)) : Prop := ∃ i j, breachRunAt trace i j

/-- Poll times are chronological (nondecreasing). -/
def TimesMono (trace : List (ℕ × ℚ)) : Prop :=
  ∀ j, j < trace.length → ∀ i, i ≤ j →
    (trace.getD i (0, 0)).1 ≤ (trace.getD j (0, 0)).1

instance (trace : List (ℕ × ℚ)) : Decidable (TimesMono trace) := by
  unfold TimesMono; infer_instance

instance (trace : List (ℕ × ℚ)) (i j : ℕ) : Decidable (breachRunAt trace i j) := by
  unfold breachRunAt
  have : Decidable (∀ k, i ≤ k → k ≤ j → (trace.getD k (0, 0)).2 ≤ slThreshold) := by
    have h : (∀ k, i ≤ k → k ≤ j → (trace.getD k (0, 0)).2 ≤ slThreshold) ↔
        (∀ k, k < j + 1 → i ≤ k → (trace.getD k (0, 0)).2 ≤ slThreshold) := by
      constructor
      · intro h k hk hik
        exact h k hik (Nat.lt_succ_iff.mp hk)
      · intro h k hik hkj
        exact h k (Nat.lt_succ_iff.mpr hkj) hik
    exact decidable_of_iff' _ h
  exact instDecidableAnd

/-! ## Order construction and EIP-712 signing

place_order (source lines 602-658) builds a PolymarketOrder whose salt,
nonce and expiration come from the current unix-second timestamp, and whose
amounts come from the rounded price; Eip712Signer (source lines 195-320)
parses the numeric-string fields back with U256::from_dec_str(..)
.unwrap_or(U256::zero()) and the address fields with Address::from_str(..)
.unwrap_or(Address::zero()), then hashes the resulting 32-byte words. -/

/-- Structural worker for decimal printing: most-significant digits first;
the fuel dominates the number of digits. -/
def natToDecAux : ℕ → ℕ → List Char
  | 0, _ => []
  | _ + 1, 0 => []
  | fuel + 1, n + 1 =>
    natToDecAux fuel ((n + 1) / 10) ++ [Nat.digitChar ((n + 1) % 10)]

/-- Decimal printing of a natural, the model of u64::to_string. -/
def natToDec (n : ℕ) : String :=
  if n = 0 then "0" else { data := natToDecAux n n }

/-- f64::round for a nonnegative value (ties away from zero). -/
def f64RoundNonneg (x : ℚ) : ℤ := ⌊x + 1/2⌋

/-- (price * 100.0).round() / 100.0 (source line 607). -/
def roundedPrice (p : ℚ) : ℚ := (f64RoundNonneg (p * 100) : ℚ) / 100

/-- (rounded_price * 1_000_000.0) as u64 (source line 612): the float-to-int
cast truncates toward zero and saturates below at 0. -/
def priceInUsdc (p : ℚ) : ℕ := (⌊roundedPrice p * 1000000⌋).toNat

/-- The bot identity fields that enter every built order (wallet-derived in
EthNoTrendBot::new, source lines 353-362). -/
structure BotCfg where
  trading_address : String
  signer_address : String
  signature_type : ℕ
deriving DecidableEq

/-- Model of struct PolymarketOrder (source lines 125-144): all numeric
fields are decimal strings exactly as in the source. -/
structure PolymarketOrderM where
  salt : String
  maker : String
  signer : String
  taker : String
  token_id : String
  maker_amount : String
  taker_amount : String
  expiration : String
  nonce : String
  fee_rate_bps : String
  side : String
  signature_type : ℕ
deriving DecidableEq

/-- The order built by place_order (source lines 607-628): salt and nonce
are both the current unix-second timestamp, expiration is timestamp + 3600,
maker_amount = size * 10^6 and taker_amount = size * (rounded price * 10^6). -/
def buildOrder (cfg : BotCfg) (timestamp : ℕ) (tokenId : String) (price : ℚ) (size : ℕ)
    (side : String) : PolymarketOrderM where
  salt := natToDec timestamp
  maker := cfg.trading_address
  signer := cfg.signer_address
  taker := "0x0000000000000000000000000000000000000000"
  token_id := tokenId
  maker_amount := natToDec (size * 1000000)
  taker_amount := natToDec (size * priceInUsdc price)
  expiration := natToDec (timestamp + 3600)
  nonce := natToDec timestamp
  fee_rate_bps := "0"
  side := side
  signature_type := cfg.signature_type

/-- 2^256, the modulus of U256. -/
def U256_MOD : ℕ := 2 ^ 256

/-- Model of U256::from_dec_str: accepts exactly the all-decimal-digit
strings whose value fits in 256 bits, and errs (none) otherwise. -/
def from_dec_str (s : String) : Option ℕ :=
  s.data.foldl
    (fun acc c =>
      acc.bind fun n =>
        if c.isDigit then
          let m := n * 10 + (c.toNat - 48)
          if m < U256_MOD then some m else none
        else none)
    (some 0)

/-- Value of one hex digit. -/
def hexDigitVal (c : Char) : Option ℕ :=
  if '0' ≤ c ∧ c ≤ '9' then some (c.toNat - 48)
  else if 'a' ≤ c ∧ c ≤ 'f' then some (c.toNat - 87)
  else if 'A' ≤ c ∧ c ≤ 'F' then some (c.toNat - 55)
  else none

/-- Big-endian hex parse of a character list. -/
def parseHexDigits (l : List Char) : Option ℕ :=
  l.foldl (fun acc c => acc.bind fun n => (hexDigitVal c).map fun d => n * 16 + d) (some 0)

/-- Model of Address::from_str (H160): an optional 0x prefix followed by
exactly 40 hex digits. -/
def parseAddress (s : String) : Option ℕ :=
  let body :=
    match s.data with
    | '0' :: 'x' :: rest => rest
    | l => l
  if body.length = 40 then parseHexDigits body else none

/-- The twelve 32-byte field words that Eip712Signer::hash_struct encodes
after the constant type hash (source lines 242-303).  Every numeric-string
field is parsed with from_dec_str and silently defaulted to zero on failure
(unwrap_or(U256::zero())); addresses likewise default to the zero address. -/
def structWords (o : PolymarketOrderM) : List ℕ :=
  [(from_dec_str o.salt).getD 0,
   (parseAddress o.maker).getD 0,
   (parseAddress o.signer).getD 0,
   (parseAddress o.taker).getD 0,
   (from_dec_str o.token_id).getD 0,
   (from_dec_str o.maker_amount).getD 0,
   (from_dec_str o.taker_amount).getD 0,
   (from_dec_str o.expiration).getD 0,
   (from_dec_str o.nonce).getD 0,
   (from_dec_str o.fee_rate_bps).getD 0,
   (if o.side = "BUY" then 0 else 1),
   o.signature_type]

/-- Model of Eip712Signer::sign_order (source lines 305-319).  The signed
payload is keccak256 of a fixed prefix, the constant domain separator and
the struct hash; keccak256 is a function of its input and wallet.sign_hash
of a LocalWallet cannot fail, so the model returns ok with the word sequence
that determines the signature.  There is no error path: hash_struct never
rejects an input. -/
def sign_order (o : PolymarketOrderM) : Except String (List ℕ) := .ok (structWords o)

/-! ## Order submission and fill polling (place_order, check_order_status)

place_order (source lines 660-702) after signing: an HTTP-level failure or
an explicit errorMsg payload returns (None, None) immediately; a response
carrying an orderID polls check_order_status up to 10 times with a fixed
2-second delay, returns the id and fill price on a MATCHED/FILLED/COMPLETED
status, and cancels the order after exhausting the 10 polls. -/

/-- Model of struct OrderStatus (source lines 165-171), numeric strings
pre-parsed. -/
structure OrderStatusM where
  status : Option String
  avg_fill_price : Option ℚ
  price : Option ℚ
deriving DecidableEq

/-- Whether a status payload counts as filled (source line 717). -/
def statusMatched (st : OrderStatusM) : Bool :=
  match st.status with
  | some s => s == "MATCHED" || s == "FILLED" || s == "COMPLETED"
  | none => false

/-- The fill price extracted from a matched status payload (source lines
718-724): avgFillPrice, else price, else 0. -/
def statusPrice (st : OrderStatusM) : ℚ :=
  match st.avg_fill_price with
  | some avg => avg
  | none =>
    match st.price with
    | some p => p
    | none => 0

/-- Model of check_order_status (source lines 704-747) for one successful
HTTP response: (matched?, fill price), (false, 0) when not matched. -/
def check_order_status (st : OrderStatusM) : Bool × ℚ :=
  if statusMatched st then (true, statusPrice st) else (false, 0)

/-- The possible submission responses (source lines 660-699). -/
inductive SubmitResult where
  | httpFail
  | errPayload (msg : String)
  | okNoId
  | accepted (orderId : String)
deriving DecidableEq

/-- The observable result of one place_order call: the returned pair plus
how many status polls ran and how many cancel requests were issued. -/
structure PlaceOrderResult where
  order_id : Option String
  fill_price : Option ℚ
  polls : ℕ
  cancels : ℕ
deriving DecidableEq

/-- The fill-polling loop of place_order (source lines 676-695) over the
sequence of status responses (none = the status check errored, which just
consumes the attempt): first matched response returns the fill; running out
of responses issues one cancel request. -/
def pollLoop (oid : String) : List (Option OrderStatusM) → PlaceOrderResult
  | [] => ⟨none, none, 0, 1⟩
  | resp :: rest =>
    match resp with
    | some st =>
      let c := check_order_status st
      if c.1 then ⟨some oid, some c.2, 1, 0⟩
      else
        let r := pollLoop oid rest
        ⟨r.order_id, r.fill_price, r.polls + 1, r.cancels⟩
    | none =>
      let r := pollLoop oid rest
      ⟨r.order_id, r.fill_price, r.polls + 1, r.cancels⟩

/-- Model of the post-submission behaviour of place_order (source lines
660-702): rejections return immediately with no polling and no cancel; an
accepted order id enters the poll loop over its (10-element) schedule of
status responses. -/
def place_order_exec (submit : SubmitResult) (statuses : List (Option OrderStatusM)) :
    PlaceOrderResult :=
  match submit with
  | .httpFail => ⟨none, none, 0, 0⟩
  | .errPayload _ => ⟨none, none, 0, 0⟩
  | .okNoId => ⟨none, none, 0, 0⟩
  | .accepted oid => pollLoop oid statuses

/-! ## Ledger effects and trade records -/

/-- The externally observable ledger-and-bookkeeping actions of one market
attempt: a save_log write (source lines 1067-1078), a traded_markets
insertion, and an order submission. -/
inductive Eff where
  | save (rec : TradeRecordM)
  | insertTraded (slug : String)
  | placeOrder (order : PolymarketOrderM)
deriving DecidableEq

def isSave : Eff → Bool
  | .save _ => true
  | _ => false

def isInsert : Eff → Bool
  | .insertTraded _ => true
  | _ => false

/-- Number of save_log writes in an effect sequence. -/
def saveCount (effs : List Eff) : ℕ := (effs.filter isSave).length

/-- Number of traded_markets insertions in an effect sequence. -/
def insertCount (effs : List Eff) : ℕ := (effs.filter isInsert).length

/-- The orders submitted in an effect sequence, in order. -/
def ordersOf (effs : List Eff) : List PolymarketOrderM :=
  effs.filterMap fun e =>
    match e with
    | .placeOrder o => some o
    | _ => none

/-- The record written by save_abort_log (source lines 1054-1065); the
abort ask enters the formatted notes in the source. -/
def abortRecord (m : MarketM) (_abortAsk : ℚ) : TradeRecordM :=
  { title := m.title, link := m.link, status := "ABORTED", entry_side := "BOTH",
    final_status := "MARKET_ABORTED",
    notes := "ASK exceeded abort threshold" }

/-- The record written when 20 entry attempts fail (source lines 994-998). -/
def entryFailedRecord (m : MarketM) (side : String) : TradeRecordM :=
  { title := m.title, link := m.link, entry_side := side,
    status := "ENTRY_FAILED", final_status := "NO_POSITION",
    notes := "Failed after 20 entry attempts" }

/-- The record state after a successful entry fill (source lines 929-934
and 973-977). -/
def successRecord (m : MarketM) (side : String) (fillPrice : ℚ) (posSize : ℕ) : TradeRecordM :=
  { title := m.title, link := m.link, entry_side := side,
    entry1_time := "now", entry_price := some fillPrice,
    position_size := some posSize, status := "SUCCESSFUL_ENTRY",
    notes := "Filled" }

/-- Record update when liquidation reports a sale price (source lines
1024-1029); the side enters the formatted notes in the source. -/
def slLiquidatedRecord (r : TradeRecordM) (_side : String) (price : ℚ) : TradeRecordM :=
  { r with
    sl_time := "now",
    sl_price := some price,
    final_status := "STOP_LOSS",
    notes := "SL triggered, liquidated",
    is_sl_triggered := "YES" }

/-- Record update when persistent_liquidation returns None (source lines
1030-1034). -/
def slFailedRecord (r : TradeRecordM) (_side : String) : TradeRecordM :=
  { r with
    final_status := "STOP_LOSS_FAILED",
    is_sl_triggered := "YES",
    notes := "SL triggered but liquidation failed" }

/-! ## The monitoring loop (monitor_market, source lines 803-924) -/

inductive Side where
  | yes
  | no
deriving DecidableEq

def sideName : Side → String
  | .yes => "YES"
  | .no => "NO"

/-- Whether the YES side is enabled by TRADE_SIDE (source line 892). -/
def sideEnabledYes : Bool := TRADE_SIDE == "YES" || TRADE_SIDE == "BOTH"

/-- Whether the NO side is enabled by TRADE_SIDE (source line 901). -/
def sideEnabledNo : Bool := TRADE_SIDE == "NO" || TRADE_SIDE == "BOTH"

/-- The YES entry condition (source lines 892-895): side enabled, best bid
(0 when absent) at least ENTRY_PRICE, ask size at least POSITION_SIZE, and
a best ask present. -/
def yesQual (b : OrderBookM) : Bool :=
  sideEnabledYes && decide (ENTRY_PRICE ≤ b.best_bid.getD 0) &&
    decide ((POSITION_SIZE : ℚ) ≤ b.ask_size) && b.best_ask.isSome

/-- The NO entry condition (source lines 901-904). -/
def noQual (b : OrderBookM) : Bool :=
  sideEnabledNo && decide (ENTRY_PRICE ≤ b.best_bid.getD 0) &&
    decide ((POSITION_SIZE : ℚ) ≤ b.ask_size) && b.best_ask.isSome

/-- The triggered side of one poll (source lines 887-910), including the
tie-break that prefers NO when both sides qualify and the NO bid is
strictly higher. -/
def entryTriggered (yb nb : OrderBookM) : Option Side :=
  let t1 : Option Side := if yesQual yb then some .yes else none
  if noQual nb &&
      (t1.isNone || (TRADE_SIDE == "BOTH" && decide (yb.best_bid.getD 0 < nb.best_bid.getD 0))) then
    some .no
  else t1

/-- The abort condition (source lines 867-869): either side has a best ask
strictly above ABORT_ASK_PRICE. -/
def shouldAbort (yb nb : OrderBookM) : Bool :=
  (yb.best_ask.isSome && decide (ABORT_ASK_PRICE < yb.best_ask.getD 0)) ||
  (nb.best_ask.isSome && decide (ABORT_ASK_PRICE < nb.best_ask.getD 0))

inductive MonitorExit where
  | closed
  | entryTimeout
  | aborted
deriving DecidableEq

/-- Result of one iteration of the monitor loop. -/
inductive MonitorStep where
  | next (windowStart : Option ℕ)
  | exitWith (e : MonitorExit) (effs : List Eff)
  | handoff (side : Side) (token : String) (ask : ℚ)
deriving DecidableEq

/-- One iteration of monitor_market's loop (source lines 812-923) at
wall-clock current_time with window state windowStart and the two fetched
books (none = a book fetch failed after its retries).  All u64 subtractions
use wsub64: a debug build panics exactly where wsub64 wraps. -/
def monitorIteration (m : MarketM) (active_trade : Bool) (start_time current_time : ℕ)
    (windowStart : Option ℕ) (books : Option (OrderBookM × OrderBookM)) : MonitorStep :=
  let elapsed := wsub64 current_time start_time
  let time_until_close := wsub64 900 elapsed
  if MARKET_WINDOW < time_until_close then .next none
  else
    let ws := windowStart.getD current_time
    if time_until_close = 0 then .exitWith .closed [.insertTraded m.slug]
    else if ENTRY_TIMEOUT < wsub64 current_time ws then
      .exitWith .entryTimeout [.insertTraded m.slug]
    else
      match books with
      | none => .next (some ws)
      | some (yb, nb) =>
        if shouldAbort yb nb then
          .exitWith .aborted
            [.save (abortRecord m (max (yb.best_ask.getD 0) (nb.best_ask.getD 0))),
             .insertTraded m.slug]
        else
          match entryTriggered yb nb with
          | some s =>
            if !active_trade then
              .handoff s (if s = Side.yes then m.yes_token else m.no_token)
                ((if s = Side.yes then yb else nb).best_ask.getD 0)
            else .next (some ws)
          | none => .next (some ws)

/-- Terminal result of the monitoring loop. -/
inductive MonRunResult where
  | exitWith (e : MonitorExit) (effs : List Eff)
  | handoff (side : Side) (token : String) (ask : ℚ)
deriving DecidableEq

/-- The monitor loop run over a scenario of polls, each a wall-clock time
together with the fetched books; none when the scenario ends with the loop
still polling. -/
def monitorRun (m : MarketM) (active : Bool) (start : ℕ) :
    Option ℕ → List (ℕ × Option (OrderBookM × OrderBookM)) → Option MonRunResult
  | _, [] => none
  | ws, (now, books) :: rest =>
    match monitorIteration m active start now ws books with
    | .next ws2 => monitorRun m active start ws2 rest
    | .exitWith e effs => some (.exitWith e effs)
    | .handoff s token ask => some (.handoff s token ask)

/-! ## Persistent liquidation (persistent_liquidation, source lines 759-801) -/

/-- The collaborator responses consumed by one liquidation attempt: the
position-query result (none = the balance query failed after its 5 internal
retries), the timestamp for the order to be built, the fetched book and the
FOK sell's fill result. -/
structure LiqAttemptInput where
  balances : Option (ℚ × ℚ)
  timestamp : ℕ
  book : Option OrderBookM
  fill : Option ℚ
deriving DecidableEq

/-- The held size for the position's side (source lines 771-775). -/
def liqShares (side : String) (bal : ℚ × ℚ) : ℚ :=
  if side = "YES" then bal.1 else bal.2

/-- persistent_liquidation's bounded retry loop (source lines 762-800),
with the attempt budget as explicit fuel (20 at the call site).  Returns
the source's Option price — none both when the held size is found to be
zero ("Liquidation Complete") and when the 20 attempts are exhausted — plus
the orders submitted; the outer none means the scenario input ended before
the loop did. -/
def liqRun (cfg : BotCfg) (tokenId : String) (side : String) :
    ℕ → List LiqAttemptInput → Option (Option ℚ × List Eff)
  | 0, _ => some (none, [])
  | _ + 1, [] => none
  | n + 1, inp :: rest =>
    match inp.balances with
    | none => liqRun cfg tokenId side n rest
    | some bal =>
      let current_shares := liqShares side bal
      if current_shares ≤ 0 then some (none, [])
      else
        match inp.book with
        | none => liqRun cfg tokenId side n rest
        | some bd =>
          match bd.best_bid with
          | none => liqRun cfg tokenId side n rest
          | some best_bid =>
            let order := buildOrder cfg inp.timestamp tokenId best_bid ⌊current_shares⌋.toNat "SELL"
            match inp.fill with
            | some price => some (some price, [.placeOrder order])
            | none =>
              match liqRun cfg tokenId side n rest with
              | none => none
              | some (res, effs) => some (res, .placeOrder order :: effs)

/-! ## Position management (manage_position, source lines 1002-1052) -/

/-- manage_position's polling loop: each input is a poll time and the
fetched book (none = fetch failed; a missing best bid likewise leaves the
breach timer untouched).  When the sustained stop loss fires it runs
persistent liquidation and writes the final record via save_log; returns
the liquidation result and the effect sequence, or none when the scenario
input ends with the position still open. -/
def managePositionRun (cfg : BotCfg) (tokenId : String) (side : String) (r : TradeRecordM)
    (liqInputs : List LiqAttemptInput) :
    Option ℕ → List (ℕ × Option OrderBookM) → Option (Option ℚ × List Eff)
  | _, [] => none
  | breach, (now, ob) :: rest =>
    match ob with
    | none => managePositionRun cfg tokenId side r liqInputs breach rest
    | some book =>
      match book.best_bid with
      | none => managePositionRun cfg tokenId side r liqInputs breach rest
      | some bid =>
        let s := slStep breach now bid
        if s.2 then
          match liqRun cfg tokenId side 20 liqInputs with
          | none => none
          | some (res, leffs) =>
            match res with
            | some price => some (res, leffs ++ [.save (slLiquidatedRecord r side price)])
            | none => some (res, leffs ++ [.save (slFailedRecord r side)])
        else managePositionRun cfg tokenId side r liqInputs s.1 rest

/-! ## Entry execution (execute_trade, source lines 926-1000) -/

/-- The collaborator responses consumed by one entry attempt: the re-checked
book, the timestamp for the order to be built, and the FOK buy's fill
result. -/
structure EntryAttemptInput where
  timestamp : ℕ
  book : Option OrderBookM
  fill : Option ℚ
deriving DecidableEq

/-- The terminal outcomes of one market attempt. -/
inductive AttemptOutcome where
  | closed
  | entryTimeout
  | abortedMonitoring
  | abortedDuringEntry
  | entryFailed
  | stopLossClosed
  | stopLossFailed
deriving DecidableEq

/-- The order size of execute_trade (source line 936): the full
POSITION_SIZE on the NO side, (POSITION_SIZE as f64 * 0.5) as u32 — the
floor of half — otherwise. -/
def execPositionSize (side : String) : ℕ :=
  if side = "NO" then POSITION_SIZE else (⌊(POSITION_SIZE : ℚ) * (1/2)⌋).toNat

/-- execute_trade's entry loop (source lines 938-999) with the attempt
budget as explicit fuel (20 at the call site): per attempt, a failed book
fetch / missing ask / stale bid / thin ask skips the attempt; an ask above
ABORT_ASK_PRICE abandons the market (inserting the slug with no ledger
record); a fill hands over to managePositionRun and then inserts the slug;
exhausting the budget writes the ENTRY_FAILED record and inserts the slug. -/
def execLoop (cfg : BotCfg) (m : MarketM) (side : String) (tokenId : String) (posSize : ℕ)
    (posInputs : List (ℕ × Option OrderBookM)) (liqInputs : List LiqAttemptInput) :
    ℕ → List EntryAttemptInput → Option (AttemptOutcome × List Eff)
  | 0, _ => some (.entryFailed, [.save (entryFailedRecord m side), .insertTraded m.slug])
  | _ + 1, [] => none
  | n + 1, inp :: rest =>
    match inp.book with
    | none => execLoop cfg m side tokenId posSize posInputs liqInputs n rest
    | some current_book =>
      match current_book.best_ask with
      | none => execLoop cfg m side tokenId posSize posInputs liqInputs n rest
      | some current_ask =>
        if ABORT_ASK_PRICE < current_ask then
          some (.abortedDuringEntry, [.insertTraded m.slug])
        else
          if current_book.best_bid.getD 0 < ENTRY_PRICE - 2/100 then
            execLoop cfg m side tokenId posSize posInputs liqInputs n rest
          else if current_book.ask_size < (posSize : ℚ) then
            execLoop cfg m side tokenId posSize posInputs liqInputs n rest
          else
            let order := buildOrder cfg inp.timestamp tokenId current_ask posSize "BUY"
            match inp.fill with
            | some fillPrice =>
              match managePositionRun cfg tokenId side
                  (successRecord m side fillPrice posSize) liqInputs none posInputs with
              | none => none
              | some (res, meffs) =>
                some (match res with
                      | some _ => AttemptOutcome.stopLossClosed
                      | none => AttemptOutcome.stopLossFailed,
                  .placeOrder order :: (meffs ++ [.insertTraded m.slug]))
            | none =>
              match execLoop cfg m side tokenId posSize posInputs liqInputs n rest with
              | none => none
              | some (o, effs) => some (o, .placeOrder order :: effs)

/-- execute_trade (source lines 926-1000): the entry loop with its 20
attempts and the position size derived from the side. -/
def executeTradeRun (cfg : BotCfg) (m : MarketM) (side : String) (tokenId : String)
    (entryInputs : List EntryAttemptInput) (posInputs : List (ℕ × Option OrderBookM))
    (liqInputs : List LiqAttemptInput) : Option (AttemptOutcome × List Eff) :=
  execLoop cfg m side tokenId (execPositionSize side) posInputs liqInputs 20 entryInputs

/-! ## One whole market attempt -/

/-- The collaborator responses consumed by one market attempt. -/
structure Scenario where
  start : ℕ
  monitorInputs : List (ℕ × Option (OrderBookM × OrderBookM))
  entryInputs : List EntryAttemptInput
  posInputs : List (ℕ × Option OrderBookM)
  liqInputs : List LiqAttemptInput

/-- One market attempt: monitor_market from its start time (active_trade is
false whenever monitor_market is entered), handing off to execute_trade on
a trigger.  none when the scenario input ends before the attempt reaches a
terminal outcome. -/
def marketAttempt (cfg : BotCfg) (m : MarketM) (sc : Scenario) :
    Option (AttemptOutcome × List Eff) :=
  match monitorRun m false sc.start none sc.monitorInputs with
  | none => none
  | some (.exitWith e effs) =>
    some (match e with
          | .closed => AttemptOutcome.closed
          | .entryTimeout => AttemptOutcome.entryTimeout
          | .aborted => AttemptOutcome.abortedMonitoring,
      effs)
  | some (.handoff s token _) =>
    executeTradeRun cfg m (sideName s) token sc.entryInputs sc.posInputs sc.liqInputs

/-- Outcomes on which the source writes a ledger record before inserting
the slug. -/
def outcomeLogged : AttemptOutcome → Bool
  | .abortedMonitoring => true
  | .entryFailed => true
  | .stopLossClosed => true
  | .stopLossFailed => true
  | _ => false

/-- The effect shape of a terminal attempt: the slug insertion is the final
action, nothing else inserts, and the number of ledger records written
before it is k. -/
def effShape (m : MarketM) (k : ℕ) (effs : List Eff) : Prop :=
  ∃ pre, effs = pre ++ [Eff.insertTraded m.slug] ∧ insertCount pre = 0 ∧ saveCount pre = k

/-! ## Concrete sample data used by the witnesses and counterexamples -/

/-- A bot configuration with the source's proxy-funder address. -/
def cfgEx : BotCfg :=
  { trading_address := "0x6c83e9bd90c67fdb623ff6e46f6ef8c4ec5a1cba",
    signer_address := "0x6c83e9bd90c67fdb623ff6e46f6ef8c4ec5a1cba",
    signature_type := 1 }

/-- A 15-minute market. -/
def mEx : MarketM :=
  { slug := "eth-updown-15m-0", title := "ETH Up or Down",
    link := "https://polymarket.com/event/eth-updown-15m-0",
    yes_token := "111", no_token := "222" }

/-- A quiet book: priced below entry, no abort. -/
def bkQuiet : OrderBookM :=
  { best_ask := some (97/100), ask_size := 30, best_bid := some (90/100), bid_size := 40 }

/-- A book whose best ask exceeds ABORT_ASK_PRICE while its entry condition
also holds (bid 0.97 ≥ ENTRY_PRICE, ask size 30 ≥ POSITION_SIZE, ask present). -/
def bkAbortEntry : OrderBookM :=
  { best_ask := some (199/200), ask_size := 30, best_bid := some (97/100), bid_size := 40 }

/-- A book meeting the entry pre-checks of execute_trade. -/
def bkEnter : OrderBookM :=
  { best_ask := some (95/100), ask_size := 30, best_bid := some (97/100), bid_size := 40 }

/-- A book whose best bid is below the stop-loss threshold. -/
def bkLow : OrderBookM :=
  { best_ask := some (90/100), ask_size := 10, best_bid := some (85/100), bid_size := 10 }

/-- A monitoring scenario that reaches the entry-window timeout: the window
opens at second 660 and the next poll happens 211 seconds later. -/
def scTimeout : Scenario :=
  { start := 0,
    monitorInputs := [(660, some (bkQuiet, bkQuiet)), (871, some (bkQuiet, bkQuiet))],
    entryInputs := [], posInputs := [], liqInputs := [] }

/-- A monitoring scenario whose single in-window poll trips the abort
condition while the YES entry condition also holds. -/
def scAbort : Scenario :=
  { start := 0,
    monitorInputs := [(700, some (bkAbortEntry, bkQuiet))],
    entryInputs := [], posInputs := [], liqInputs := [] }

/-- The spec's stop-loss scenario: a 2-second dip, a recovery, then a
dip sustained for SUSTAIN_TIME = 3 seconds. -/
def slTraceEx : List (ℕ × ℚ) :=
  [(0, 85/100), (2, 85/100), (3, 92/100), (4, 85/100), (5, 85/100), (7, 85/100)]

/-- A liquidation attempt input that finds the position already empty. -/
def liqZeroInput : LiqAttemptInput :=
  { balances := some (0, 0), timestamp := 0, book := none, fill := none }

/-- Position polls whose bid stays at or below the stop-loss threshold for
SUSTAIN_TIME seconds. -/
def posBreachInputs : List (ℕ × Option OrderBookM) := [(0, some bkLow), (3, some bkLow)]

/-- Two entry attempts within the same unix second (the source retries a
failed FOK after 500 ms): the first buy is not filled, the second fills. -/
def sameSecondEntryInputs : List EntryAttemptInput :=
  [{ timestamp := 1000, book := some bkEnter, fill := none },
   { timestamp := 1000, book := some bkEnter, fill := some (95/100) }]

/-- An order whose salt is not a decimal numeral. -/
def orderBadSalt : PolymarketOrderM :=
  { salt := "abc", maker := "0x6c83e9bd90c67fdb623ff6e46f6ef8c4ec5a1cba",
    signer := "0x6c83e9bd90c67fdb623ff6e46f6ef8c4ec5a1cba",
    taker := "0x0000000000000000000000000000000000000000",
    token_id := "111", maker_amount := "25000000", taker_amount := "23750000",
    expiration := "4600", nonce := "1000", fee_rate_bps := "0", side := "BUY",
    signature_type := 1 }

/-- A status payload that counts as matched, with an average fill price. -/
def stMatched : OrderStatusM :=
  { status := some "MATCHED", avg_fill_price := some (97/100), price := none }

/-- A status payload that does not count as matched. -/
def stLive : OrderStatusM :=
  { status := some "LIVE", avg_fill_price := none, price := none }

/-- A 10-poll status schedule whose third response is the first match. -/
def statusesEx : List (Option OrderStatusM) :=
  [none, some stLive, some stMatched, some stLive, some stLive,
   some stLive, some stLive, some stLive, some stLive, some stLive]

/-- A 10-poll status schedule with no match at all. -/
def statusesNoMatch : List (Option OrderStatusM) :=
  [some stLive, some stLive, some stLive, none, some stLive,
   some stLive, some stLive, some stLive, some stLive, some stLive]

/-! ## Helper lemmas: the sustained stop-loss detector -/

lemma sustainedBreach_cons (p : ℕ × ℚ) (rest : List (ℕ × ℚ)) (h : SustainedBreach rest) :
    SustainedBreach (p :: rest) := by
  obtain ⟨i, j, hij, hj, hbr, hspan⟩ := h
  refine ⟨i + 1, j + 1, Nat.succ_le_succ hij, Nat.succ_lt_succ hj, ?_, ?_⟩
  · intro k h1 h2
    cases k with
    | zero => omega
    | succ k2 =>
      simpa using hbr k2 (Nat.le_of_succ_le_succ h1) (Nat.le_of_succ_le_succ h2)
  · simpa using hspan

lemma timesMono_cons (p : ℕ × ℚ) (rest : List (ℕ × ℚ)) (h : TimesMono (p :: rest)) :
    TimesMono rest := by
  intro j hj i hij
  have := h (j + 1) (Nat.succ_lt_succ hj) (i + 1) (Nat.succ_le_succ hij)
  simpa using this

lemma timesMono_head (p : ℕ × ℚ) (rest : List (ℕ × ℚ)) (h : TimesMono (p :: rest))
    (j : ℕ) (hj : j < rest.length) : p.1 ≤ (rest.getD j (0, 0)).1 := by
  have := h (j + 1) (Nat.succ_lt_succ hj) 0 (Nat.zero_le _)
  simpa using this

lemma slRun_true_aux (trace : List (ℕ × ℚ)) :
    ∀ s, slRun s trace = true →
      SustainedBreach trace ∨
        ∃ t0, s = some t0 ∧ ∃ j, j < trace.length ∧
          (∀ k, k ≤ j → (trace.getD k (0, 0)).2 ≤ slThreshold) ∧
          SUSTAIN_TIME ≤ (trace.getD j (0, 0)).1 - t0 := by
  induction trace with
  | nil => intro s h; simp [slRun] at h
  | cons p rest ih =>
    obtain ⟨t, b⟩ := p
    intro s h
    by_cases hb : b ≤ slThreshold
    · simp only [slRun, slStep, hb, if_true] at h
      by_cases hfire : SUSTAIN_TIME ≤ t - s.getD t
      · cases s with
        | none =>
          refine Or.inl ⟨0, 0, le_refl 0, Nat.succ_pos _, ?_, ?_⟩
          · intro k h1 h2
            have : k = 0 := Nat.le_zero.mp h2
            subst this
            simpa using hb
          · simpa using hfire
        | some t0 =>
          refine Or.inr ⟨t0, rfl, 0, Nat.succ_pos _, ?_, ?_⟩
          · intro k h2
            have : k = 0 := Nat.le_zero.mp h2
            subst this
            simpa using hb
          · simpa using hfire
      · rw [if_neg (by simpa using hfire)] at h
        rcases ih _ h with hS | ⟨t0, ht0, j, hj, hpre, hspan⟩
        · exact Or.inl (sustainedBreach_cons _ _ hS)
        · have ht0' : s.getD t = t0 := by injection ht0
          cases s with
          | none =>
            refine Or.inl ⟨0, j + 1, Nat.zero_le _, Nat.succ_lt_succ hj, ?_, ?_⟩
            · intro k h1 h2
              cases k with
              | zero => simpa using hb
              | succ k2 => simpa using hpre k2 (Nat.le_of_succ_le_succ h2)
            · have : t = t0 := by simpa using ht0'
              subst this
              simpa using hspan
          | some u =>
            have hu : u = t0 := by simpa using ht0'
            refine Or.inr ⟨u, rfl, j + 1, Nat.succ_lt_succ hj, ?_, ?_⟩
            · intro k h2
              cases k with
              | zero => simpa using hb
              | succ k2 => simpa using hpre k2 (Nat.le_of_succ_le_succ h2)
            · rw [hu]
              simpa using hspan
    · simp only [slRun, slStep, hb, if_false] at h
      rcases ih none h with hS | ⟨t0, ht0, _⟩
      · exact Or.inl (sustainedBreach_cons _ _ hS)
      · exact absurd ht0 (by simp)

lemma slRun_false_prefix (trace : List (ℕ × ℚ)) :
    ∀ t0, slRun (some t0) trace = false →
      ∀ j, j < trace.length → (∀ k, k ≤ j → (trace.getD k (0, 0)).2 ≤ slThreshold) →
        (trace.getD j (0, 0)).1 - t0 < SUSTAIN_TIME := by
  induction trace with
  | nil => intro t0 _ j hj; simp at hj
  | cons p rest ih =>
    obtain ⟨t, b⟩ := p
    intro t0 h j hj hbr
    have hb : b ≤ slThreshold := by simpa using hbr 0 (Nat.zero_le _)
    simp only [slRun, slStep, hb, if_true, Option.getD_some] at h
    by_cases hfire : SUSTAIN_TIME ≤ t - t0
    · simp [hfire] at h
    · rw [if_neg (by simpa using hfire)] at h
      cases j with
      | zero => simpa using Nat.lt_of_not_le hfire
      | succ j2 =>
        have := ih t0 h j2 (Nat.lt_of_succ_lt_succ hj)
          (fun k hk => by simpa using hbr (k + 1) (Nat.succ_le_succ hk))
        simpa using this

lemma slRun_false_aux (trace : List (ℕ × ℚ)) :
    ∀ s, slRun s trace = false →
      (∀ t0 p, s = some t0 → trace.head? = some p → t0 ≤ p.1) →
      TimesMono trace → ¬ SustainedBreach trace := by
  induction trace with
  | nil => rintro s _ _ _ ⟨i, j, _, hj, _, _⟩; simp at hj
  | cons p rest ih =>
    obtain ⟨t, b⟩ := p
    rintro s h hs hmono ⟨i, j, hij, hj, hbr, hspan⟩
    by_cases hb : b ≤ slThreshold
    · simp only [slRun, slStep, hb, if_true] at h
      have ht0 : s.getD t ≤ t := by
        cases s with
        | none => simp
        | some u => simpa using hs u (t, b) rfl rfl
      by_cases hfire : SUSTAIN_TIME ≤ t - s.getD t
      · simp [hfire] at h
      · rw [if_neg (by simpa using hfire)] at h
        cases i with
        | zero =>
          cases j with
          | zero =>
            have h0 : SUSTAIN_TIME ≤ t - t := by simpa using hspan
            have : SUSTAIN_TIME ≤ t - s.getD t :=
              le_trans h0 (Nat.sub_le_sub_left ht0 t)
            exact hfire this
          | succ j2 =>
            have hpre : ∀ k, k ≤ j2 → (rest.getD k (0, 0)).2 ≤ slThreshold := by
              intro k hk
              simpa using hbr (k + 1) (Nat.zero_le _) (Nat.succ_le_succ hk)
            have hlt := slRun_false_prefix rest (s.getD t) h j2
              (Nat.lt_of_succ_lt_succ hj) hpre
            have hsp : SUSTAIN_TIME ≤ (rest.getD j2 (0, 0)).1 - t := by simpa using hspan
            have : (rest.getD j2 (0, 0)).1 - t ≤ (rest.getD j2 (0, 0)).1 - s.getD t :=
              Nat.sub_le_sub_left ht0 _
            exact absurd (le_trans hsp this) (Nat.not_le.mpr hlt)
        | succ i2 =>
          cases j with
          | zero => omega
          | succ j2 =>
            refine ih (some (s.getD t)) h ?_ (timesMono_cons _ _ hmono)
              ⟨i2, j2, Nat.le_of_succ_le_succ hij, Nat.lt_of_succ_lt_succ hj, ?_, ?_⟩
            · intro u q hu hq
              have hu' : s.getD t = u := by injection hu
              cases rest with
              | nil => simp at hq
              | cons q2 rest2 =>
                have hq' : q2 = q := by simpa using hq
                subst hq'
                have hhead : t ≤ q2.1 := by
                  have := timesMono_head (t, b) (q2 :: rest2) hmono 0 (Nat.succ_pos _)
                  simpa using this
                omega
            · intro k h1 h2
              simpa using hbr (k + 1) (Nat.succ_le_succ h1) (Nat.succ_le_succ h2)
            · simpa using hspan
    · simp only [slRun, slStep, hb, if_false] at h
      cases i with
      | zero =>
        have : b ≤ slThreshold := by simpa using hbr 0 (le_refl 0) (Nat.zero_le _)
        exact hb this
      | succ i2 =>
        cases j with
        | zero => omega
        | succ j2 =>
          refine ih none h (by simp) (timesMono_cons _ _ hmono)
            ⟨i2, j2, Nat.le_of_succ_le_succ hij, Nat.lt_of_succ_lt_succ hj, ?_, ?_⟩
          · intro k h1 h2
            simpa using hbr (k + 1) (Nat.succ_le_succ h1) (Nat.succ_le_succ h2)
          · simpa using hspan

/-- C2: for every chronological sequence of polled best-bid prices while a
position is open, the stop-loss fires if and only if the bid stays at or
below the stop-loss threshold (STOP_LOSS_PRICE plus the 0.02 tolerance) for
a contiguous span of at least SUSTAIN_TIME seconds; a poll at which the bid
is above the threshold resets the breach timer outright, so a dip that
recovers before SUSTAIN_TIME elapses never fires. -/
theorem stop_loss_fires_iff_sustained_breach (trace : List (ℕ × ℚ))
    (hmono : TimesMono trace) :
    (slRun none trace = true ↔ SustainedBreach trace) ∧
    (∀ s now bid, slThreshold < bid → slStep s now bid = (none, false)) := by
  constructor
  · constructor
    · intro h
      rcases slRun_true_aux trace none h with h2 | ⟨t0, ht0, _⟩
      · exact h2
      · cases ht0
    · intro h
      cases hsl : slRun none trace with
      | true => rfl
      | false =>
        exact absurd h (slRun_false_aux trace none hsl (by intro t0 p h2; cases h2) hmono)
  · intro s now bid hbid
    simp [slStep, not_le.mpr hbid]

unseal Rat.mul Rat.inv Rat.add in
theorem stop_loss_fires_iff_sustained_breach_witness :
    TimesMono slTraceEx ∧ slRun none slTraceEx = true ∧ SustainedBreach slTraceEx :=
  have hm : TimesMono slTraceEx := by decide
  have hr : slRun none slTraceEx = true := by decide
  ⟨hm, hr, ((stop_loss_fires_iff_sustained_breach slTraceEx hm).1).mp hr⟩

/-! ## Helper lemmas: the entry trigger -/

lemma sideEnabledYes_eq : sideEnabledYes = true := rfl

lemma sideEnabledNo_eq : sideEnabledNo = true := rfl

lemma yesQual_iff (b : OrderBookM) :
    yesQual b = true ↔
      ENTRY_PRICE ≤ b.best_bid.getD 0 ∧ (POSITION_SIZE : ℚ) ≤ b.ask_size ∧
        b.best_ask.isSome = true := by
  simp [yesQual, sideEnabledYes_eq, and_assoc]

lemma noQual_iff (b : OrderBookM) :
    noQual b = true ↔
      ENTRY_PRICE ≤ b.best_bid.getD 0 ∧ (POSITION_SIZE : ℚ) ≤ b.ask_size ∧
        b.best_ask.isSome = true := by
  simp [noQual, sideEnabledNo_eq, and_assoc]

lemma entryTriggered_yes_qual (yb nb : OrderBookM)
    (h : entryTriggered yb nb = some Side.yes) : yesQual yb = true := by
  by_cases hy : yesQual yb
  · exact hy
  · unfold entryTriggered at h
    simp only [hy] at h
    split at h <;> simp_all

lemma entryTriggered_no_qual (yb nb : OrderBookM)
    (h : entryTriggered yb nb = some Side.no) : noQual nb = true := by
  by_cases hn : noQual nb
  · exact hn
  · unfold entryTriggered at h
    simp only [hn, Bool.false_and, if_false] at h
    split at h <;> simp_all

lemma entryTriggered_isSome_iff (yb nb : OrderBookM) :
    (entryTriggered yb nb).isSome = true ↔ yesQual yb = true ∨ noQual nb = true := by
  unfold entryTriggered
  by_cases hy : yesQual yb <;> by_cases hn : noQual nb <;>
    simp [hy, hn] <;> (try split) <;> simp_all

/-- C5: on every monitoring poll, entry triggers exactly when some side
meets all three conditions — best bid at least ENTRY_PRICE, ask size at
least POSITION_SIZE, and a best ask present (the side-enable conjunct is
constant-true under TRADE_SIDE = "BOTH"); the triggered side itself always
meets its three conditions, so a side whose ask size is below POSITION_SIZE
is never the triggered side, whatever its bid. -/
theorem entry_triggers_iff_three_conditions (yb nb : OrderBookM) :
    ((entryTriggered yb nb).isSome = true ↔ yesQual yb = true ∨ noQual nb = true) ∧
    (yesQual yb = true ↔
      ENTRY_PRICE ≤ yb.best_bid.getD 0 ∧ (POSITION_SIZE : ℚ) ≤ yb.ask_size ∧
        yb.best_ask.isSome = true) ∧
    (noQual nb = true ↔
      ENTRY_PRICE ≤ nb.best_bid.getD 0 ∧ (POSITION_SIZE : ℚ) ≤ nb.ask_size ∧
        nb.best_ask.isSome = true) ∧
    (entryTriggered yb nb = some Side.yes → yesQual yb = true) ∧
    (entryTriggered yb nb = some Side.no → noQual nb = true) ∧
    (yb.ask_size < (POSITION_SIZE : ℚ) → entryTriggered yb nb ≠ some Side.yes) ∧
    (nb.ask_size < (POSITION_SIZE : ℚ) → entryTriggered yb nb ≠ some Side.no) :=
  ⟨entryTriggered_isSome_iff yb nb, yesQual_iff yb, noQual_iff nb,
   entryTriggered_yes_qual yb nb, entryTriggered_no_qual yb nb,
   fun hsz h =>
     absurd ((yesQual_iff yb).mp (entryTriggered_yes_qual yb nb h)).2.1 (not_le.mpr hsz),
   fun hsz h =>
     absurd ((noQual_iff nb).mp (entryTriggered_no_qual yb nb h)).2.1 (not_le.mpr hsz)⟩

unseal Rat.mul Rat.inv in
theorem entry_triggers_iff_three_conditions_witness :
    (entryTriggered bkEnter bkQuiet).isSome = true :=
  (entry_triggers_iff_three_conditions bkEnter bkQuiet).1.mpr (Or.inl (by decide))

unseal Rat.mul Rat.inv in
/-- C10: execute_trade submits floor(POSITION_SIZE * 0.5) = 12 shares on
the YES side and the full POSITION_SIZE = 25 on the NO side, while the
monitoring entry check requires ask size at least the full POSITION_SIZE
on both sides. -/
theorem yes_entry_buys_half_position_size :
    execPositionSize "YES" = 12 ∧
    execPositionSize "YES" = (⌊(POSITION_SIZE : ℚ) * (1/2)⌋).toNat ∧
    execPositionSize "NO" = POSITION_SIZE ∧
    (∀ b : OrderBookM, yesQual b = true → (POSITION_SIZE : ℚ) ≤ b.ask_size) ∧
    (∀ b : OrderBookM, noQual b = true → (POSITION_SIZE : ℚ) ≤ b.ask_size) := by
  refine ⟨by decide, rfl, by decide, ?_, ?_⟩
  · intro b hb
    exact ((yesQual_iff b).mp hb).2.1
  · intro b hb
    exact ((noQual_iff b).mp hb).2.1

unseal Rat.mul Rat.inv in
theorem yes_entry_buys_half_position_size_witness :
    (POSITION_SIZE : ℚ) ≤ bkEnter.ask_size :=
  yes_entry_buys_half_position_size.2.2.2.1 bkEnter (by decide)

/-! ## Helper lemmas: fill polling -/

lemma pollLoop_no_match (oid : String) (statuses : List (Option OrderStatusM))
    (h : ∀ x ∈ statuses, ∀ st, x = some st → statusMatched st = false) :
    pollLoop oid statuses = ⟨none, none, statuses.length, 1⟩ := by
  induction statuses with
  | nil => rfl
  | cons resp rest ih =>
    have ih2 := ih fun x hx st hst => h x (List.mem_cons_of_mem _ hx) st hst
    cases resp with
    | none => simp [pollLoop, ih2]
    | some st =>
      have hm : statusMatched st = false := h (some st) (List.mem_cons_self _ _) st rfl
      simp [pollLoop, check_order_status, hm, ih2]

lemma pollLoop_first_match (oid : String) (pre rest : List (Option OrderStatusM))
    (st : OrderStatusM)
    (hpre : ∀ x ∈ pre, ∀ s, x = some s → statusMatched s = false)
    (hst : statusMatched st = true) :
    pollLoop oid (pre ++ some st :: rest) =
      ⟨some oid, some (statusPrice st), pre.length + 1, 0⟩ := by
  induction pre with
  | nil => simp [pollLoop, check_order_status, hst]
  | cons x xs ih =>
    have ih2 := ih fun y hy s hs => hpre y (List.mem_cons_of_mem _ hy) s hs
    cases x with
    | none => simp [pollLoop, ih2]
    | some s =>
      have hm : statusMatched s = false := hpre (some s) (List.mem_cons_self _ _) s rfl
      simp [pollLoop, check_order_status, hm, ih2]

/-- C9: after a submission accepted with an order identifier, status is
polled at most a bounded number of times (one per scheduled response, 10 in
total): the first MATCHED/FILLED/COMPLETED response yields the fill with
its extracted price and no cancel request; exhausting all 10 responses
without a match issues exactly one cancel request and yields no fill; an
HTTP-level failure or an explicit error payload returns no fill immediately
— zero status polls and zero cancel requests. -/
theorem place_order_poll_cancel_reject_behavior
    (statuses : List (Option OrderStatusM)) (hlen : statuses.length = 10) :
    (∀ msg, place_order_exec .httpFail statuses = ⟨none, none, 0, 0⟩ ∧
      place_order_exec (.errPayload msg) statuses = ⟨none, none, 0, 0⟩) ∧
    (∀ oid pre rest st, statuses = pre ++ some st :: rest →
      (∀ x ∈ pre, ∀ s, x = some s → statusMatched s = false) →
      statusMatched st = true →
      place_order_exec (.accepted oid) statuses =
        ⟨some oid, some (statusPrice st), pre.length + 1, 0⟩ ∧ pre.length + 1 ≤ 10) ∧
    (∀ oid, (∀ x ∈ statuses, ∀ st, x = some st → statusMatched st = false) →
      place_order_exec (.accepted oid) statuses = ⟨none, none, 10, 1⟩) := by
  refine ⟨fun msg => ⟨rfl, rfl⟩, ?_, ?_⟩
  · intro oid pre rest st hsplit hpre hst
    constructor
    · show pollLoop oid statuses = _
      rw [hsplit]
      exact pollLoop_first_match oid pre rest st hpre hst
    · have : statuses.length = pre.length + 1 + rest.length := by
        rw [hsplit]
        simp
        omega
      omega
  · intro oid hnone
    show pollLoop oid statuses = _
    rw [pollLoop_no_match oid statuses hnone, hlen]

theorem place_order_poll_cancel_reject_behavior_witness :
    place_order_exec (.accepted "oid1") statusesEx =
      ⟨some "oid1", some (97/100), 3, 0⟩ ∧
    place_order_exec (.accepted "oid2") statusesNoMatch = ⟨none, none, 10, 1⟩ ∧
    place_order_exec .httpFail statusesEx = ⟨none, none, 0, 0⟩ :=
  ⟨by
    have h := (place_order_poll_cancel_reject_behavior statusesEx rfl).2.1 "oid1"
      [none, some stLive] [some stLive, some stLive, some stLive, some stLive,
        some stLive, some stLive, some stLive] stMatched rfl (by decide) (by decide)
    exact h.1,
   (place_order_poll_cancel_reject_behavior statusesNoMatch rfl).2.2 "oid2" (by decide),
   ((place_order_poll_cancel_reject_behavior statusesEx rfl).1 "m").1⟩

/-! ## C6: signing totality and silent zeroing of malformed fields -/

/-- C6 counterexample: signing the order whose salt is the non-numeric
string "abc" produces no error of any kind — sign_order returns ok — and
its signing payload is identical to that of the same order with salt "0":
the malformed numeric-string field is silently parsed as zero rather than
mapped to an InvalidOrderField error (no such error exists in the code). -/
theorem malformed_salt_silently_accepted :
    from_dec_str "abc" = none ∧
    sign_order orderBadSalt = .ok (structWords orderBadSalt) ∧
    structWords orderBadSalt = structWords { orderBadSalt with salt := "0" } := by
  refine ⟨by decide, rfl, by decide⟩

/-- C6 (amended): order signing is total — sign_order never returns an
error — and a malformed numeric-string salt is silently defaulted to zero,
making the signing payload equal to that of the order with salt "0". -/
theorem signing_total_malformed_fields_zeroed (o : PolymarketOrderM) :
    (sign_order o).isOk = true ∧
    (from_dec_str o.salt = none → structWords o = structWords { o with salt := "0" }) := by
  constructor
  · rfl
  · intro h
    have h0 : from_dec_str "0" = some 0 := by decide
    simp [structWords, h, h0]

theorem signing_total_malformed_fields_zeroed_witness :
    (sign_order orderBadSalt).isOk = true ∧
    structWords orderBadSalt = structWords { orderBadSalt with salt := "0" } :=
  ⟨(signing_total_malformed_fields_zeroed orderBadSalt).1,
   (signing_total_malformed_fields_zeroed orderBadSalt).2 (by decide)⟩

/-! ## C8: the remaining-time computation past the close instant -/

/-- C8 (code bug): on the first poll past the close instant (elapsed = 901
seconds since the market opened, one second past the 900-second close), the
u64 computation 900 - elapsed underflows: wsub64 yields 2^64 - 1 instead of
a well-defined remaining time (a debug build panics right there), and the
monitor classifies the market as pre-window — resetting the entry window to
none — instead of terminating with the closed outcome and marking the
market traded. -/
theorem past_close_poll_underflows_and_misses_close :
    wsub64 900 901 = 2 ^ 64 - 1 ∧
    2 ^ 64 - 1 ≠ 0 ∧
    monitorIteration mEx false 0 901 (some 660) (some (bkQuiet, bkQuiet)) =
      .next none := by
  refine ⟨by decide, by decide, ?_⟩
  have h1 : wsub64 901 0 = 901 := by decide
  have h2 : wsub64 900 901 = 2 ^ 64 - 1 := by decide
  have h3 : MARKET_WINDOW < 2 ^ 64 - 1 := by decide
  simp only [monitorIteration]
  rw [h1, h2, if_pos h3]

/-! ## Helper lemmas: decimal printing is injective -/

lemma natToDecAux_eq : ∀ fuel n, n ≤ fuel →
    natToDecAux fuel n = ((Nat.digits 10 n).map Nat.digitChar).reverse := by
  intro fuel
  induction fuel with
  | zero =>
    intro n hn
    have h0 : n = 0 := Nat.le_zero.mp hn
    subst h0
    simp [natToDecAux]
  | succ f ih =>
    intro n hn
    cases n with
    | zero => simp [natToDecAux]
    | succ m =>
      have hdiv : (m + 1) / 10 ≤ f := by
        have h1 : (m + 1) / 10 < m + 1 := Nat.div_lt_self (Nat.succ_pos m) (by norm_num)
        omega
      rw [natToDecAux, ih _ hdiv,
        Nat.digits_def' (by norm_num : (1 : ℕ) < 10) (Nat.succ_pos m)]
      simp

lemma digitChar_inj_lt :
    ∀ a, a < 10 → ∀ b, b < 10 → Nat.digitChar a = Nat.digitChar b → a = b := by decide

lemma map_digitChar_inj : ∀ l1 l2 : List ℕ, (∀ d ∈ l1, d < 10) → (∀ d ∈ l2, d < 10) →
    l1.map Nat.digitChar = l2.map Nat.digitChar → l1 = l2 := by
  intro l1
  induction l1 with
  | nil =>
    intro l2 _ _ h
    cases l2 with
    | nil => rfl
    | cons b bs => simp at h
  | cons a as ih =>
    intro l2 h1 h2 h
    cases l2 with
    | nil => simp at h
    | cons b bs =>
      simp only [List.map_cons, List.cons.injEq] at h
      have ha : a = b :=
        digitChar_inj_lt a (h1 a (List.mem_cons_self _ _)) b (h2 b (List.mem_cons_self _ _)) h.1
      rw [ha, ih bs (fun d hd => h1 d (List.mem_cons_of_mem _ hd))
        (fun d hd => h2 d (List.mem_cons_of_mem _ hd)) h.2]

lemma natToDec_eq_digits (n : ℕ) (hn : n ≠ 0) :
    natToDec n = { data := ((Nat.digits 10 n).map Nat.digitChar).reverse } := by
  unfold natToDec
  rw [if_neg hn, natToDecAux_eq n n (le_refl n)]

lemma natToDec_injective : Function.Injective natToDec := by
  intro m n h
  by_cases hm : m = 0 <;> by_cases hn : n = 0
  · rw [hm, hn]
  · exfalso
    subst hm
    rw [natToDec_eq_digits n hn] at h
    have hdata : ("0" : String).data = ((Nat.digits 10 n).map Nat.digitChar).reverse := by
      have := congrArg String.data h
      simpa [natToDec] using this
    have hlen : (Nat.digits 10 n).length = 1 := by
      have := congrArg List.length hdata
      simpa using this.symm
    obtain ⟨d, hd1⟩ := List.length_eq_one.mp hlen
    rw [hd1] at hdata
    have hchar : '0' = Nat.digitChar d := by simpa using hdata
    have hdlt : d < 10 :=
      Nat.digits_lt_base (by norm_num) (hd1 ▸ List.mem_singleton_self d)
    have hd0 : d = 0 := by
      have := digitChar_inj_lt 0 (by norm_num) d hdlt (by simpa using hchar)
      omega
    have : n = 0 := by
      have hof := Nat.ofDigits_digits 10 n
      rw [hd1, hd0] at hof
      simpa [Nat.ofDigits] using hof.symm
    exact hn this
  · exfalso
    subst hn
    rw [natToDec_eq_digits m hm] at h
    have hdata : ("0" : String).data = ((Nat.digits 10 m).map Nat.digitChar).reverse := by
      have := congrArg String.data h.symm
      simpa [natToDec] using this
    have hlen : (Nat.digits 10 m).length = 1 := by
      have := congrArg List.length hdata
      simpa using this.symm
    obtain ⟨d, hd1⟩ := List.length_eq_one.mp hlen
    rw [hd1] at hdata
    have hchar : '0' = Nat.digitChar d := by simpa using hdata
    have hdlt : d < 10 :=
      Nat.digits_lt_base (by norm_num) (hd1 ▸ List.mem_singleton_self d)
    have hd0 : d = 0 := by
      have := digitChar_inj_lt 0 (by norm_num) d hdlt (by simpa using hchar)
      omega
    have : m = 0 := by
      have hof := Nat.ofDigits_digits 10 m
      rw [hd1, hd0] at hof
      simpa [Nat.ofDigits] using hof.symm
    exact hm this
  · rw [natToDec_eq_digits m hm, natToDec_eq_digits n hn] at h
    have hdata := congrArg String.data h
    simp only [List.reverse_inj] at hdata
    have hdig : Nat.digits 10 m = Nat.digits 10 n :=
      map_digitChar_inj _ _ (fun d hd => Nat.digits_lt_base (by norm_num) hd)
        (fun d hd => Nat.digits_lt_base (by norm_num) hd) hdata
    exact Nat.digits.injective 10 hdig

/-! ## C7: salt/nonce freshness across attempts -/

unseal Rat.mul Rat.inv Rat.add Rat.sub in
/-- C7 counterexample: two distinct order-submission attempts of one
execute_trade entry loop whose build timestamps fall in the same unix
second (the source retries a failed FOK after only 500 ms) submit
byte-identical orders — same salt and same nonce — because salt and nonce
are both just the second-granularity timestamp.  The run below makes two
submissions (the first is not filled, the second fills) and the two
submitted orders are equal. -/
theorem same_second_attempts_build_identical_orders :
    (executeTradeRun cfgEx mEx "NO" "222" sameSecondEntryInputs posBreachInputs
        [liqZeroInput]).map (fun r => ordersOf r.2) =
      some [buildOrder cfgEx 1000 "222" (95/100) 25 "BUY",
            buildOrder cfgEx 1000 "222" (95/100) 25 "BUY"] ∧
    (buildOrder cfgEx 1000 "222" (95/100) 25 "BUY").salt = "1000" ∧
    (buildOrder cfgEx 1000 "222" (95/100) 25 "BUY").nonce = "1000" := by
  refine ⟨by decide, by decide, by decide⟩

/-- C7 (amended): the salt and the nonce of every built order are exactly
the decimal representation of the attempt's unix-second build timestamp;
hence two attempts whose timestamps differ carry distinct salts and
distinct nonces, while attempts within the same second (see the
counterexample) carry identical ones. -/
theorem distinct_timestamps_give_distinct_salt_nonce
    (cfg cfg2 : BotCfg) (t1 t2 : ℕ) (tok1 tok2 : String) (p1 p2 : ℚ) (sz1 sz2 : ℕ)
    (sd1 sd2 : String) (h : t1 ≠ t2) :
    (buildOrder cfg t1 tok1 p1 sz1 sd1).salt = natToDec t1 ∧
    (buildOrder cfg t1 tok1 p1 sz1 sd1).nonce = natToDec t1 ∧
    (buildOrder cfg t1 tok1 p1 sz1 sd1).salt ≠ (buildOrder cfg2 t2 tok2 p2 sz2 sd2).salt ∧
    (buildOrder cfg t1 tok1 p1 sz1 sd1).nonce ≠ (buildOrder cfg2 t2 tok2 p2 sz2 sd2).nonce :=
  ⟨rfl, rfl, fun hc => h (natToDec_injective hc), fun hc => h (natToDec_injective hc)⟩

theorem distinct_timestamps_give_distinct_salt_nonce_witness :
    (buildOrder cfgEx 1000 "222" (95/100) 25 "BUY").salt ≠
      (buildOrder cfgEx 1001 "222" (95/100) 25 "BUY").salt :=
  (distinct_timestamps_give_distinct_salt_nonce cfgEx cfgEx 1000 1001 "222" "222"
    (95/100) (95/100) 25 25 "BUY" "BUY" (by decide)).2.2.1

/-! ## C4: liquidation with zero held size -/

unseal Rat.mul Rat.inv Rat.add in
/-- C4 (code bug): when the stop loss fires and the queried held size is
already zero, persistent_liquidation terminates at once without submitting
any order (its effect list is empty) — the source even prints "Liquidation
Complete" — but it returns None, and manage_position maps None to
final_status = STOP_LOSS_FAILED; so the idempotent already-closed case IS
recorded as a liquidation failure, contradicting the claim.  The run below
evaluates the code on that failing input. -/
theorem zero_shares_liquidation_logged_as_stop_loss_failed :
    liqRun cfgEx "222" "YES" 20 [liqZeroInput] = some (none, []) ∧
    managePositionRun cfgEx "222" "YES" (successRecord mEx "YES" (95/100) 12) [liqZeroInput]
        none posBreachInputs =
      some (none,
        [Eff.save (slFailedRecord (successRecord mEx "YES" (95/100) 12) "YES")]) ∧
    (slFailedRecord (successRecord mEx "YES" (95/100) 12) "YES").final_status =
      "STOP_LOSS_FAILED" := by
  refine ⟨by decide, by decide, rfl⟩

/-! ## C3: abort priority over entry -/

/-- C3: on any monitoring poll inside the entry window (not pre-window, not
at the close instant, not past the entry timeout) whose fetched books
satisfy the abort condition, the iteration aborts unconditionally: the
aborted record is saved, the slug is inserted, and monitoring exits — the
entry conditions are never consulted, so this holds even when an entry
condition also holds on the same poll (see the witness, whose book
qualifies for entry too). -/
theorem abort_takes_priority_over_entry (m : MarketM) (active : Bool) (start now : ℕ)
    (ws : Option ℕ) (yb nb : OrderBookM)
    (hwin : wsub64 900 (wsub64 now start) ≤ MARKET_WINDOW)
    (hopen : wsub64 900 (wsub64 now start) ≠ 0)
    (htime : wsub64 now (ws.getD now) ≤ ENTRY_TIMEOUT)
    (habort : shouldAbort yb nb = true) :
    monitorIteration m active start now ws (some (yb, nb)) =
      .exitWith .aborted
        [.save (abortRecord m (max (yb.best_ask.getD 0) (nb.best_ask.getD 0))),
         .insertTraded m.slug] := by
  unfold monitorIteration
  rw [if_neg (not_lt.mpr hwin)]
  simp only []
  rw [if_neg hopen, if_neg (not_lt.mpr htime), if_pos habort]

unseal Rat.mul Rat.inv in
theorem abort_takes_priority_over_entry_witness :
    monitorIteration mEx false 0 700 (some 660) (some (bkAbortEntry, bkQuiet)) =
      .exitWith .aborted
        [.save (abortRecord mEx
          (max (bkAbortEntry.best_ask.getD 0) (bkQuiet.best_ask.getD 0))),
         .insertTraded mEx.slug] ∧
    entryTriggered bkAbortEntry bkQuiet = some Side.yes :=
  ⟨abort_takes_priority_over_entry mEx false 0 700 (some 660) bkAbortEntry bkQuiet
      (by decide) (by decide) (by decide) (by decide),
   by decide⟩

/-! ## Helper lemmas: ledger effect accounting -/

lemma saveCount_nil : saveCount [] = 0 := rfl

lemma insertCount_nil : insertCount [] = 0 := rfl

lemma saveCount_cons (e : Eff) (effs : List Eff) :
    saveCount (e :: effs) = (if isSave e then 1 else 0) + saveCount effs := by
  simp only [saveCount, List.filter_cons]
  split <;> simp [Nat.add_comm]

lemma insertCount_cons (e : Eff) (effs : List Eff) :
    insertCount (e :: effs) = (if isInsert e then 1 else 0) + insertCount effs := by
  simp only [insertCount, List.filter_cons]
  split <;> simp [Nat.add_comm]

lemma saveCount_append (a b : List Eff) : saveCount (a ++ b) = saveCount a + saveCount b := by
  simp [saveCount, List.filter_append]

lemma insertCount_append (a b : List Eff) :
    insertCount (a ++ b) = insertCount a + insertCount b := by
  simp [insertCount, List.filter_append]

/-! ## Helper lemmas: effect shapes of each phase -/

lemma monitorIteration_exit_shape (m : MarketM) (active : Bool) (start now : ℕ)
    (ws : Option ℕ) (books : Option (OrderBookM × OrderBookM)) (e : MonitorExit)
    (effs : List Eff)
    (h : monitorIteration m active start now ws books = .exitWith e effs) :
    (e = .closed ∨ e = .entryTimeout) ∧ effs = [.insertTraded m.slug] ∨
      e = .aborted ∧ ∃ r, effs = [.save r, .insertTraded m.slug] := by
  simp only [monitorIteration] at h
  by_cases h1 : MARKET_WINDOW < wsub64 900 (wsub64 now start)
  · rw [if_pos h1] at h
    simp at h
  · rw [if_neg h1] at h
    by_cases h2 : wsub64 900 (wsub64 now start) = 0
    · rw [if_pos h2] at h
      injection h with he heffs
      exact Or.inl ⟨Or.inl he.symm, heffs.symm⟩
    · rw [if_neg h2] at h
      by_cases h3 : ENTRY_TIMEOUT < wsub64 now (ws.getD now)
      · rw [if_pos h3] at h
        injection h with he heffs
        exact Or.inl ⟨Or.inr he.symm, heffs.symm⟩
      · rw [if_neg h3] at h
        cases books with
        | none => simp at h
        | some bb =>
          obtain ⟨yb, nb⟩ := bb
          dsimp only at h
          by_cases h4 : shouldAbort yb nb = true
          · rw [if_pos h4] at h
            injection h with he heffs
            exact Or.inr ⟨he.symm, _, heffs.symm⟩
          · rw [if_neg h4] at h
            rcases hE : entryTriggered yb nb with _ | s <;> rw [hE] at h
            · simp at h
            · cases active <;> simp at h

lemma monitorRun_exit_shape (m : MarketM) (active : Bool) (start : ℕ) :
    ∀ (inputs : List (ℕ × Option (OrderBookM × OrderBookM))) (ws : Option ℕ)
      (e : MonitorExit) (effs : List Eff),
      monitorRun m active start ws inputs = some (.exitWith e effs) →
      (e = .closed ∨ e = .entryTimeout) ∧ effs = [.insertTraded m.slug] ∨
        e = .aborted ∧ ∃ r, effs = [.save r, .insertTraded m.slug] := by
  intro inputs
  induction inputs with
  | nil => intro ws e effs h; simp [monitorRun] at h
  | cons p rest ih =>
    obtain ⟨now, books⟩ := p
    intro ws e effs h
    simp only [monitorRun] at h
    split at h
    · exact ih _ e effs h
    · rename_i e2 effs2 hit
      have hsome := Option.some.inj h
      injection hsome with he heffs
      subst he
      subst heffs
      exact monitorIteration_exit_shape m active start now ws books e2 effs2 hit
    · simp at h

lemma liqRun_no_ledger_effects (cfg : BotCfg) (tok side : String) :
    ∀ (inputs : List LiqAttemptInput) (fuel : ℕ) (res : Option ℚ) (effs : List Eff),
      liqRun cfg tok side fuel inputs = some (res, effs) →
      saveCount effs = 0 ∧ insertCount effs = 0 := by
  intro inputs
  induction inputs with
  | nil =>
    intro fuel res effs h
    cases fuel with
    | zero =>
      simp only [liqRun, Option.some.injEq, Prod.mk.injEq] at h
      rw [← h.2]
      exact ⟨rfl, rfl⟩
    | succ n => simp [liqRun] at h
  | cons inp rest ih =>
    intro fuel res effs h
    cases fuel with
    | zero =>
      simp only [liqRun, Option.some.injEq, Prod.mk.injEq] at h
      rw [← h.2]
      exact ⟨rfl, rfl⟩
    | succ n =>
      simp only [liqRun] at h
      rcases hbal : inp.balances with _ | bal <;> rw [hbal] at h <;> dsimp only at h
      · exact ih n res effs h
      · by_cases hsh : liqShares side bal ≤ 0
        · rw [if_pos hsh] at h
          simp only [Option.some.injEq, Prod.mk.injEq] at h
          rw [← h.2]
          exact ⟨rfl, rfl⟩
        · rw [if_neg hsh] at h
          rcases hbk : inp.book with _ | bd <;> rw [hbk] at h <;> dsimp only at h
          · exact ih n res effs h
          · rcases hbid : bd.best_bid with _ | bb <;> rw [hbid] at h <;> dsimp only at h
            · exact ih n res effs h
            · rcases hfill : inp.fill with _ | price <;> rw [hfill] at h <;> dsimp only at h
              · rcases hrec : liqRun cfg tok side n rest with _ | pr <;> rw [hrec] at h <;>
                  dsimp only at h
                · simp at h
                · obtain ⟨res2, effs2⟩ := pr
                  simp only [Option.some.injEq, Prod.mk.injEq] at h
                  rw [← h.2]
                  have := ih n res2 effs2 hrec
                  simp [saveCount_cons, insertCount_cons, isSave, isInsert, this.1, this.2]
              · simp only [Option.some.injEq, Prod.mk.injEq] at h
                rw [← h.2]
                exact ⟨rfl, rfl⟩

lemma managePositionRun_counts (cfg : BotCfg) (tok side : String) (r0 : TradeRecordM)
    (liqInputs : List LiqAttemptInput) :
    ∀ (posInputs : List (ℕ × Option OrderBookM)) (breach : Option ℕ)
      (res : Option ℚ) (effs : List Eff),
      managePositionRun cfg tok side r0 liqInputs breach posInputs = some (res, effs) →
      saveCount effs = 1 ∧ insertCount effs = 0 := by
  intro posInputs
  induction posInputs with
  | nil => intro breach res effs h; simp [managePositionRun] at h
  | cons p rest ih =>
    obtain ⟨now, ob⟩ := p
    intro breach res effs h
    simp only [managePositionRun] at h
    rcases ob with _ | book <;> dsimp only at h
    · exact ih breach res effs h
    · rcases hbid : book.best_bid with _ | bid <;> rw [hbid] at h <;> dsimp only at h
      · exact ih breach res effs h
      · by_cases hf : (slStep breach now bid).2 = true
        · rw [if_pos hf] at h
          rcases hliq : liqRun cfg tok side 20 liqInputs with _ | pr <;> rw [hliq] at h <;>
            dsimp only at h
          · simp at h
          · obtain ⟨lres, leffs⟩ := pr
            have hcounts := liqRun_no_ledger_effects cfg tok side liqInputs 20 lres leffs hliq
            rcases lres with _ | price <;> dsimp only at h <;>
              simp only [Option.some.injEq, Prod.mk.injEq] at h <;> rw [← h.2] <;>
              simp [saveCount_append, insertCount_append, saveCount_cons, insertCount_cons,
                saveCount_nil, insertCount_nil, isSave, isInsert, hcounts.1, hcounts.2]
        · rw [if_neg hf] at h
          exact ih (slStep breach now bid).1 res effs h

lemma execLoop_shape (cfg : BotCfg) (m : MarketM) (side tok : String) (posSize : ℕ)
    (posInputs : List (ℕ × Option OrderBookM)) (liqInputs : List LiqAttemptInput) :
    ∀ (entryInputs : List EntryAttemptInput) (fuel : ℕ) (o : AttemptOutcome)
      (effs : List Eff),
      execLoop cfg m side tok posSize posInputs liqInputs fuel entryInputs = some (o, effs) →
      (o = .abortedDuringEntry ∨ o = .entryFailed ∨ o = .stopLossClosed ∨
        o = .stopLossFailed) ∧
        effShape m (if o = .abortedDuringEntry then 0 else 1) effs := by
  intro entryInputs
  induction entryInputs with
  | nil =>
    intro fuel o effs h
    cases fuel with
    | zero =>
      simp only [execLoop, Option.some.injEq, Prod.mk.injEq] at h
      rw [← h.1, ← h.2]
      refine ⟨Or.inr (Or.inl rfl), [Eff.save (entryFailedRecord m side)], rfl, rfl, ?_⟩
      simp [saveCount_cons, isSave, saveCount_nil]
    | succ n => simp [execLoop] at h
  | cons inp rest ih =>
    intro fuel o effs h
    cases fuel with
    | zero =>
      simp only [execLoop, Option.some.injEq, Prod.mk.injEq] at h
      rw [← h.1, ← h.2]
      refine ⟨Or.inr (Or.inl rfl), [Eff.save (entryFailedRecord m side)], rfl, rfl, ?_⟩
      simp [saveCount_cons, isSave, saveCount_nil]
    | succ n =>
      simp only [execLoop] at h
      rcases hbk : inp.book with _ | book <;> rw [hbk] at h <;> dsimp only at h
      · exact ih n o effs h
      · rcases hask : book.best_ask with _ | ask <;> rw [hask] at h <;> dsimp only at h
        · exact ih n o effs h
        · by_cases habort : ABORT_ASK_PRICE < ask
          · rw [if_pos habort] at h
            simp only [Option.some.injEq, Prod.mk.injEq] at h
            rw [← h.1, ← h.2]
            exact ⟨Or.inl rfl, [], rfl, rfl, rfl⟩
          · rw [if_neg habort] at h
            by_cases hbid : book.best_bid.getD 0 < ENTRY_PRICE - 2 / 100
            · rw [if_pos hbid] at h
              exact ih n o effs h
            · rw [if_neg hbid] at h
              by_cases hsz : book.ask_size < (posSize : ℚ)
              · rw [if_pos hsz] at h
                exact ih n o effs h
              · rw [if_neg hsz] at h
                rcases hfill : inp.fill with _ | fillPrice <;> rw [hfill] at h <;>
                  dsimp only at h
                · rcases hrec : execLoop cfg m side tok posSize posInputs liqInputs n rest
                    with _ | pr <;> rw [hrec] at h <;> dsimp only at h
                  · simp at h
                  · obtain ⟨o2, effs2⟩ := pr
                    simp only [Option.some.injEq, Prod.mk.injEq] at h
                    obtain ⟨ho, heffs⟩ := h
                    obtain ⟨hdisj, pre2, hpre2, hic, hsc⟩ := ih n o2 effs2 hrec
                    rw [← ho, ← heffs]
                    refine ⟨hdisj,
                      Eff.placeOrder (buildOrder cfg inp.timestamp tok ask posSize "BUY") ::
                        pre2, ?_, ?_, ?_⟩
                    · rw [hpre2, List.cons_append]
                    · simp [insertCount_cons, isInsert, hic]
                    · simp [saveCount_cons, isSave, hsc]
                · rcases hmg : managePositionRun cfg tok side
                      (successRecord m side fillPrice posSize) liqInputs none posInputs
                    with _ | pr <;> rw [hmg] at h <;> dsimp only at h
                  · simp at h
                  · obtain ⟨res2, meffs⟩ := pr
                    have hcounts := managePositionRun_counts cfg tok side
                      (successRecord m side fillPrice posSize) liqInputs posInputs none
                      res2 meffs hmg
                    dsimp only at h
                    simp only [Option.some.injEq, Prod.mk.injEq] at h
                    obtain ⟨ho, heffs⟩ := h
                    rw [← heffs]
                    have hshape : effShape m 1
                        (Eff.placeOrder (buildOrder cfg inp.timestamp tok ask posSize "BUY") ::
                          (meffs ++ [Eff.insertTraded m.slug])) := by
                      refine ⟨Eff.placeOrder (buildOrder cfg inp.timestamp tok ask posSize
                        "BUY") :: meffs, ?_, ?_, ?_⟩
                      · rw [List.cons_append]
                      · simp [insertCount_cons, isInsert, hcounts.2]
                      · simp [saveCount_cons, isSave, hcounts.1]
                    rcases hres : res2 with _ | price <;> rw [hres] at ho <;> dsimp only at ho <;>
                      rw [← ho]
                    · exact ⟨Or.inr (Or.inr (Or.inr rfl)), by simpa using hshape⟩
                    · exact ⟨Or.inr (Or.inr (Or.inl rfl)), by simpa using hshape⟩

/-- C1 (amended): for every market attempt that reaches a terminal outcome,
the traded_markets insertion is the final action, nothing else inserts, and
the number of save_log records written before it is exactly one for the
abort-from-monitoring, entry-failure and stop-loss outcomes but exactly
zero for the market-close, entry-window-timeout and abort-during-entry
outcomes: those three terminal paths mark the market traded without ever
writing a ledger record. -/
theorem terminal_outcome_ledger_shape (cfg : BotCfg) (m : MarketM) (sc : Scenario)
    (o : AttemptOutcome) (effs : List Eff)
    (h : marketAttempt cfg m sc = some (o, effs)) :
    effShape m (if outcomeLogged o then 1 else 0) effs := by
  unfold marketAttempt at h
  rcases hmon : monitorRun m false sc.start none sc.monitorInputs with _ | r <;>
    rw [hmon] at h
  · simp at h
  · cases r with
    | exitWith e effs2 =>
      rcases monitorRun_exit_shape m false sc.start sc.monitorInputs none e effs2 hmon with
        ⟨hce, hfe⟩ | ⟨hae, r2, hfe⟩
      · rcases hce with he | he <;> subst he <;> subst hfe <;> dsimp only at h <;>
          simp only [Option.some.injEq, Prod.mk.injEq] at h <;>
          obtain ⟨ho, heffs⟩ := h <;> rw [← ho, ← heffs]
        · exact ⟨[], rfl, rfl, rfl⟩
        · exact ⟨[], rfl, rfl, rfl⟩
      · subst hae
        subst hfe
        dsimp only at h
        simp only [Option.some.injEq, Prod.mk.injEq] at h
        obtain ⟨ho, heffs⟩ := h
        rw [← ho, ← heffs]
        exact ⟨[Eff.save r2], rfl, rfl, rfl⟩
    | handoff s2 tok ask =>
      dsimp only at h
      unfold executeTradeRun at h
      obtain ⟨hdisj, hshape⟩ := execLoop_shape cfg m (sideName s2) tok
        (execPositionSize (sideName s2)) sc.posInputs sc.liqInputs sc.entryInputs 20 o effs h
      rcases hdisj with h1 | h1 | h1 | h1 <;> subst h1 <;> simpa using hshape

unseal Rat.mul Rat.inv in
/-- C1 counterexample: a market attempt that terminates through the
entry-window timeout inserts the slug into traded_markets WITHOUT writing
any ledger record — save_log is never called on this terminal path (the
market-close and abort-during-entry paths behave the same way) — refuting
the claim that every terminal outcome writes exactly one record before the
insertion. -/
theorem entry_timeout_writes_no_ledger_record :
    marketAttempt cfgEx mEx scTimeout =
      some (.entryTimeout, [Eff.insertTraded "eth-updown-15m-0"]) ∧
    saveCount [Eff.insertTraded "eth-updown-15m-0"] = 0 :=
  ⟨by decide, rfl⟩

unseal Rat.mul Rat.inv in
theorem terminal_outcome_ledger_shape_witness :
    effShape mEx 1
      [Eff.save (abortRecord mEx (199/200)), Eff.insertTraded "eth-updown-15m-0"] := by
  have h : marketAttempt cfgEx mEx scAbort =
      some (.abortedMonitoring,
        [Eff.save (abortRecord mEx (199/200)), Eff.insertTraded "eth-updown-15m-0"]) := by
    decide
  simpa using terminal_outcome_ledger_shape cfgEx mEx scAbort _ _ h
